import Mathlib

/-!
Shallow embedding of the `associations` party-game server
(`server/state.mjs` and `server/index.mjs`).

JavaScript strings are modelled as `List Char`.  The host-library string
functions (`toLowerCase`, `normalize("NFKD")`, the Unicode `\p{Diacritic}`
class, `\s`) are modelled for the code points the game manipulates:
lower-casing is the Basic-Latin case map (identity elsewhere), NFKD is the
identity (all inputs in the specification's examples are NFKD-normal), the
diacritic class is the Combining Diacritical Marks block, and `\s` is the
JS whitespace set.  `Map` objects and plain string-keyed objects are
modelled as insertion-ordered association lists with overwrite-in-place
semantics, matching the JS iteration order guarantees.
-/

/-- JS strings, modelled as lists of characters. -/
abbrev JStr := List Char

/-- Opaque player identifiers (only compared for equality and echoed back). -/
abbrev PlayerId := Nat

/-- The JS regular-expression class `\s` (whitespace), as used by
`trim()` and `replace(/\s+/g, " ")`. -/
def isJsWhitespace (c : Char) : Bool :=
  let n := c.toNat
  n == 0x20 || n == 0x09 || n == 0x0A || n == 0x0D || n == 0x0B || n == 0x0C ||
  n == 0xA0 || n == 0x1680 || (decide (0x2000 ≤ n) && decide (n ≤ 0x200A)) ||
  n == 0x2028 || n == 0x2029 || n == 0x202F || n == 0x205F || n == 0x3000 || n == 0xFEFF

/-- The character class `[\u0000-\u001F\u007F]` (C0 controls and DEL)
stripped by `sanitizeName`. -/
def isC0orDel (c : Char) : Bool :=
  decide (c.toNat ≤ 0x1F) || c.toNat == 0x7F

/-- The Unicode `\p{Diacritic}` class, modelled as the Combining
Diacritical Marks block (the diacritics produced by NFKD on Latin text). -/
def isDiacritic (c : Char) : Bool :=
  decide (0x300 ≤ c.toNat) && decide (c.toNat ≤ 0x36F)

/-- JS `String.prototype.trim()`: drop JS whitespace at both ends. -/
def jsTrim (s : JStr) : JStr :=
  ((s.dropWhile isJsWhitespace).reverse.dropWhile isJsWhitespace).reverse

/-- Helper for `collapseWs`; the flag records whether the previous
character was whitespace (so the current run has already emitted its
single space). -/
def collapseWsAux : JStr → Bool → JStr
  | [], _ => []
  | c :: rest, inRun =>
    if isJsWhitespace c then
      if inRun then collapseWsAux rest true
      else ' ' :: collapseWsAux rest true
    else c :: collapseWsAux rest false

/-- JS `replace(/\s+/g, " ")`: every maximal whitespace run becomes one space. -/
def collapseWs (s : JStr) : JStr := collapseWsAux s false

/-- JS `toLowerCase()`, modelled on Basic Latin (`Char.toLower` maps `A`–`Z`
and is the identity elsewhere). -/
def jsToLower (s : JStr) : JStr := s.map Char.toLower

/-- JS `normalize("NFKD")`, modelled as the identity: the embedding covers
code points that are NFKD-normal. -/
def nfkd (s : JStr) : JStr := s

/-- JS `replace(/\p{Diacritic}/gu, "")`. -/
def stripDiacritics (s : JStr) : JStr := s.filter (fun c => !isDiacritic c)

/-- The function `norm` from `server/index.mjs` (renamed: Mathlib already declares `norm`):
`(s || "").toLowerCase().normalize("NFKD").replace(/\p{Diacritic}/gu, "").trim()`. -/
def vNorm (s : JStr) : JStr :=
  jsTrim (stripDiacritics (nfkd (jsToLower s)))

/-- The function `normalize` from `server/state.mjs` (renamed: Mathlib already declares
`normalize`):
`String(word || "").trim().toLowerCase().normalize("NFKD").replace(/\s+/g, " ")`. -/
def normalizeWord (word : JStr) : JStr :=
  collapseWs (nfkd (jsToLower (jsTrim word)))

/-- Accumulator for `splitTokens` (`cur` holds the current token reversed). -/
def splitTokensAux (sep : Char → Bool) : JStr → JStr → List JStr
  | [], cur => if cur = [] then [] else [cur.reverse]
  | c :: rest, cur =>
    if sep c then
      if cur = [] then splitTokensAux sep rest []
      else cur.reverse :: splitTokensAux sep rest []
    else splitTokensAux sep rest (c :: cur)

/-- JS `prompt.split(/[\s\-_]+/).filter(Boolean)`: the maximal nonempty runs
of characters that are not whitespace, hyphen or underscore. -/
def splitTokens (s : JStr) : List JStr :=
  splitTokensAux (fun c => isJsWhitespace c || c == '-' || c == '_') s []

/-- The four rejection reasons returned by `validateAssociation`
(the code returns the literal German strings
"Bitte gib ein Wort ein.", "Das ist genau das Prompt-Wort.",
"Wähle nicht einfach einen Teil des Prompts.",
"Zu nah am Prompt (Vorsilbe/Nachsuffix)."). -/
inductive RejectReason where
  | emptyInput
  | exactPromptMatch
  | promptToken
  | promptAffix
deriving DecidableEq

/-- The function `validateAssociation` from `server/index.mjs`: `none` means the
candidate is allowed, `some r` carries the rejection reason. -/
def validateAssociation (promptRaw candidateRaw : JStr) : Option RejectReason :=
  let prompt := vNorm promptRaw
  let cand := vNorm candidateRaw
  if cand = [] then some .emptyInput
  else if cand = prompt then some .exactPromptMatch
  else
    let parts := splitTokens prompt
    if parts.length > 1 then
      if parts.any (fun p => cand = p) then some .promptToken
      else none
    else
      if 4 ≤ cand.length && (cand.isPrefixOf prompt || cand.isSuffixOf prompt) then
        some .promptAffix
      else none

/-- The reference decision procedure stated by the specification (§4.3),
written from the spec's words, first matching rule wins: (1) empty
normalized candidate rejected; (2) candidate equal to the normalized
prompt rejected; (3) multi-token prompt: rejected iff equal to some
token; (4) otherwise (single-token prompt): rejected iff the candidate
has length ≥ 4 and the prompt starts-with or ends-with it.  `true` means
the candidate is accepted. -/
def refAccepts (promptRaw candidateRaw : JStr) : Bool :=
  let p := vNorm promptRaw
  let c := vNorm candidateRaw
  if c = [] then false
  else if c = p then false
  else
    let toks := splitTokens p
    if toks.length > 1 then !(toks.any (fun t => c = t))
    else !(4 ≤ c.length && (c.isPrefixOf p || c.isSuffixOf p))

/-! ## JS `Map` / string-keyed object model: insertion-ordered assoc lists -/

/-- JS `Map.prototype.get` / object indexing: first (unique) binding of `k`. -/
def jsGet [DecidableEq κ] : List (κ × α) → κ → Option α
  | [], _ => none
  | (k', v) :: rest, k => if k' = k then some v else jsGet rest k

/-- JS `Map.prototype.has`. -/
def jsHas [DecidableEq κ] (m : List (κ × α)) (k : κ) : Bool :=
  (jsGet m k).isSome

/-- JS `Map.prototype.set` / object assignment: overwrite in place,
else append (JS preserves the original insertion position on overwrite). -/
def jsSet [DecidableEq κ] : List (κ × α) → κ → α → List (κ × α)
  | [], k, v => [(k, v)]
  | (k', v') :: rest, k, v =>
    if k' = k then (k', v) :: rest else (k', v') :: jsSet rest k v

/-- JS `Map.prototype.delete`: remove the (unique) binding of `k`. -/
def jsDelete [DecidableEq κ] : List (κ × α) → κ → List (κ × α)
  | [], _ => []
  | (k', v') :: rest, k =>
    if k' = k then rest else (k', v') :: jsDelete rest k

/-- The keys of a map are pairwise distinct (invariant of every JS `Map`). -/
def keysNodup [DecidableEq κ] (m : List (κ × α)) : Prop :=
  (m.map Prod.fst).Nodup

theorem jsGet_jsSet_self [DecidableEq κ] (m : List (κ × α)) (k : κ) (v : α) :
    jsGet (jsSet m k v) k = some v := by
  induction m with
  | nil => simp [jsSet, jsGet]
  | cons kv rest ih =>
    obtain ⟨k', v'⟩ := kv
    by_cases h : k' = k <;> simp [jsSet, jsGet, h, ih]

theorem jsGet_jsSet_ne [DecidableEq κ] (m : List (κ × α)) (k q : κ) (v : α)
    (h : q ≠ k) : jsGet (jsSet m k v) q = jsGet m q := by
  have h' : ¬ k = q := fun hh => h hh.symm
  induction m with
  | nil => simp [jsSet, jsGet, h']
  | cons kv rest ih =>
    obtain ⟨k', v'⟩ := kv
    by_cases hk : k' = k
    · subst hk
      simp [jsSet, jsGet, h']
    · simp [jsSet, jsGet, hk, ih]

theorem jsGet_eq_none_iff [DecidableEq κ] (m : List (κ × α)) (k : κ) :
    jsGet m k = none ↔ k ∉ m.map Prod.fst := by
  induction m with
  | nil => simp [jsGet]
  | cons kv rest ih =>
    obtain ⟨k', v'⟩ := kv
    by_cases h : k' = k
    · subst h
      simp [jsGet]
    · have h' : ¬ k = k' := fun hh => h hh.symm
      simp [jsGet, h, ih, h']

theorem keys_jsSet [DecidableEq κ] (m : List (κ × α)) (k : κ) (v : α) :
    (jsSet m k v).map Prod.fst =
      if jsHas m k then m.map Prod.fst else m.map Prod.fst ++ [k] := by
  induction m with
  | nil => simp [jsSet, jsHas, jsGet]
  | cons kv rest ih =>
    obtain ⟨k', v'⟩ := kv
    by_cases h : k' = k
    · subst h
      simp [jsSet, jsHas, jsGet]
    · by_cases hh : jsHas rest k <;>
        simp [jsSet, jsHas, jsGet, h, ih, hh] <;> simp [jsHas] at hh <;> simp [hh]

theorem keysNodup_jsSet [DecidableEq κ] (m : List (κ × α)) (k : κ) (v : α)
    (h : keysNodup m) : keysNodup (jsSet m k v) := by
  unfold keysNodup
  rw [keys_jsSet]
  by_cases hh : jsHas m k
  · simpa [hh] using h
  · have hk : jsGet m k = none := by
      cases hg : jsGet m k with
      | none => rfl
      | some w => exact absurd (by simp [jsHas, hg]) hh
    have hk' : k ∉ m.map Prod.fst := (jsGet_eq_none_iff m k).mp hk
    rw [if_neg hh]
    refine List.Nodup.append h (List.nodup_singleton k) ?_
    intro a ha hb
    rw [List.mem_singleton] at hb
    subst hb
    exact hk' ha

theorem jsGet_of_mem_nodup [DecidableEq κ] (m : List (κ × α)) (k : κ) (v : α)
    (hnd : keysNodup m) (hm : (k, v) ∈ m) : jsGet m k = some v := by
  induction m with
  | nil => simp at hm
  | cons kv rest ih =>
    obtain ⟨k', v'⟩ := kv
    simp only [keysNodup, List.map_cons, List.nodup_cons] at hnd
    rcases List.mem_cons.mp hm with h | h
    · injection h with h1 h2
      subst h1
      subst h2
      simp [jsGet]
    · have hk : k' ≠ k := by
        rintro rfl
        exact hnd.1 (List.mem_map_of_mem Prod.fst h)
      have : jsGet rest k = some v := ih (by simpa [keysNodup] using hnd.2) h
      simp [jsGet, hk, this]

/-! ## Data model (`server/state.mjs`) -/

inductive RoundStatus where
  | collecting
  | revealed
deriving DecidableEq

/-- The object `state.round`: `{ id, prompt, status, submissions }`.  The
`crypto.randomUUID()` round id is modelled as an opaque `Nat`. -/
structure Round where
  rid : Nat
  prompt : JStr
  status : RoundStatus
  submissions : List (PlayerId × JStr)
deriving DecidableEq

/-- An entry of `state.players`: `{ name, score }`. -/
structure Player where
  name : JStr
  score : Nat
deriving DecidableEq

/-- The in-memory singleton `state`: round, players, join counter. -/
structure GState where
  round : Option Round
  players : List (PlayerId × Player)
  joinCounter : Nat
deriving DecidableEq

/-- The coarse game state broadcast to clients. -/
inductive GameTag where
  | idle
  | collecting
  | revealed
deriving DecidableEq

/-- The projection `gameState()`: `'idle'` if no round, else the round's status. -/
def gameState (st : GState) : GameTag :=
  match st.round with
  | none => .idle
  | some r =>
    match r.status with
    | .collecting => .collecting
    | .revealed => .revealed

/-- The player-safe round projection returned by `publicRound()`. -/
structure PublicRound where
  rid : Nat
  prompt : JStr
  status : RoundStatus
  submissionCount : Nat
deriving DecidableEq

def publicRound (st : GState) : Option PublicRound :=
  st.round.map fun r => ⟨r.rid, r.prompt, r.status, r.submissions.length⟩

/-- A leaderboard row: `{ id, name, score }`. -/
structure LBRow where
  id : PlayerId
  name : JStr
  score : Nat
deriving DecidableEq

/-- Stable insertion step for the descending-score sort. -/
def insertByScoreDesc (score : α → Nat) (x : α) : List α → List α
  | [] => [x]
  | y :: ys => if score y < score x then x :: y :: ys else y :: insertByScoreDesc score x ys

/-- The stable JS `Array.prototype.sort` with comparator
`(a, b) => b.score - a.score`: descending by score, ties keep the
original order. -/
def sortByScoreDesc (score : α → Nat) (l : List α) : List α :=
  l.foldr (insertByScoreDesc score) []

/-- The projection `getLeaderboard()`: all players, sorted by score descending. -/
def getLeaderboard (st : GState) : List LBRow :=
  sortByScoreDesc LBRow.score (st.players.map fun ip => ⟨ip.1, ip.2.name, ip.2.score⟩)

/-- A host-overview row: `{ id, name, score, submitted, word? }`
(the `word` field exists only when `includeWords` and the player
submitted). -/
structure OverviewRow where
  id : PlayerId
  name : JStr
  score : Nat
  submitted : Bool
  word : Option JStr
deriving DecidableEq

/-- The projection `getPlayersOverview(includeWords)`. -/
def getPlayersOverview (st : GState) (includeWords : Bool) : List OverviewRow :=
  sortByScoreDesc OverviewRow.score <| st.players.map fun ip =>
    let sub : Bool := match st.round with
      | some r => jsHas r.submissions ip.1
      | none => false
    { id := ip.1, name := ip.2.name, score := ip.2.score, submitted := sub,
      word := if includeWords && sub then
          (match st.round with
            | some r => jsGet r.submissions ip.1
            | none => none)
        else none }

/-- The mutation `startRound(prompt)`: fresh round, `collecting`, empty submissions
(`prompt || ""` is the identity on strings since the falsy string is
the empty string). -/
def startRound (st : GState) (rid : Nat) (prompt : JStr) : GState :=
  { st with round := some ⟨rid, prompt, .collecting, []⟩ }

/-- One entry of the `results` payload of `closeRound`. -/
structure ResultRow where
  word : JStr
  freq : Nat
  pointsPerPlayer : Nat
deriving DecidableEq

/-- The `{ results, leaderboard }` object returned by `closeRound`. -/
structure CloseResult where
  results : List ResultRow
  leaderboard : List LBRow
deriving DecidableEq

/-- The increment `counts[key] = (counts[key] || 0) + 1`, idealized as a
pure-map update.  `counts` is a plain JS object, so this idealization is
faithful exactly when `key` is not a lowercase-reachable
`Object.prototype` member (`"constructor"`, `"__proto__"`); see
`objRead`/`objWrite`/`buildCountsObj` below for the faithful
plain-object semantics and `buildCountsObj_agrees` for the agreement
away from those two keys.  The idealized tally backs `closeRound`,
whose role in the claims proved below (idempotence, broadcast routing)
does not depend on the tally values. -/
def bumpCount (cnts : List (JStr × Nat)) (k : JStr) : List (JStr × Nat) :=
  jsSet cnts k ((jsGet cnts k).getD 0 + 1)

/-- The `counts` table built by `closeRound`, over the pure-map
idealization of `bumpCount` (see its comment). -/
def buildCounts (vals : List JStr) : List (JStr × Nat) :=
  vals.foldl (fun cnts w => bumpCount cnts (normalizeWord w)) []

/-- The scoring loop of `closeRound` over the idealized tally: each
submitting player that is still registered gains `Math.max(freq - 1, 0)`
points (`Nat` subtraction is the clamped subtraction).  Faithful only
away from the two prototype keys: see `awardPointsObj` for what the
program really does there. -/
def awardPoints (players : List (PlayerId × Player)) (cnts : List (JStr × Nat))
    (subs : List (PlayerId × JStr)) : List (PlayerId × Player) :=
  subs.foldl
    (fun ps pw =>
      let freq := (jsGet cnts (normalizeWord pw.2)).getD 0
      let pts := freq - 1
      match jsGet ps pw.1 with
      | some pl => jsSet ps pw.1 { pl with score := pl.score + pts }
      | none => ps)
    players

/-- The operation `closeRound()`: no-op with empty results unless a
collecting round exists; otherwise flips the status to `revealed`,
tallies normalized words, awards points, and returns the aggregated
results.  The tally uses the pure-map idealization (see `bumpCount`):
the claims proved over `closeRound` below (idempotence, broadcast
routing) are insensitive to the tally values; the divergence of the
real plain-object tally at the keys `"constructor"`/`"__proto__"` is
established separately over the faithful model. -/
def closeRound (st : GState) : GState × CloseResult :=
  match st.round with
  | none => (st, ⟨[], getLeaderboard st⟩)
  | some r =>
    match r.status with
    | .revealed => (st, ⟨[], getLeaderboard st⟩)
    | .collecting =>
      let cnts := buildCounts (r.submissions.map Prod.snd)
      let players1 := awardPoints st.players cnts r.submissions
      let st1 : GState := { st with round := some { r with status := .revealed },
                                    players := players1 }
      let results := cnts.map fun wf => ResultRow.mk wf.1 wf.2 (wf.2 - 1)
      (st1, ⟨results, getLeaderboard st1⟩)

/-- The operation `resetGame()`: clear the round AND the players, reset the join
counter, and return the (now empty) leaderboard. -/
def resetGame (_st : GState) : GState × List LBRow :=
  let st1 : GState := { round := none, players := [], joinCounter := 0 }
  (st1, getLeaderboard st1)

/-- The name-cleaning pipeline of `sanitizeName` before the empty
fallback: strip C0/DEL controls, trim, collapse whitespace runs. -/
def nameClean (name : JStr) : JStr :=
  collapseWs (jsTrim (name.filter fun c => !isC0orDel c))

/-- The function `sanitizeName(name)`: clean the name; an empty result falls back to
`"Player " + (++state.joinCounter)`; finally crop to 24 characters.
Returns the name together with the (possibly bumped) state. -/
def sanitizeName (st : GState) (name : JStr) : JStr × GState :=
  let s := nameClean name
  if s = [] then
    let n := st.joinCounter + 1
    (("Player ".toList ++ (toString n).toList).take 24, { st with joinCounter := n })
  else (s.take 24, st)

/-- The `{ created, player }` object returned by `ensurePlayer`. -/
structure EnsureResult where
  created : Bool
  player : Player
deriving DecidableEq

/-- JS truthiness of an optional string argument (`undefined` and `""`
are falsy). -/
def truthyStr (s : Option JStr) : Bool :=
  match s with
  | none => false
  | some x => !x.isEmpty

/-- The function `ensurePlayer(playerId, desiredName)`: create the player if absent,
with the sanitized desired name when one was provided (truthy), else
the sequential default `"Player N"`. -/
def ensurePlayer (st : GState) (pid : PlayerId) (desiredName : Option JStr) :
    GState × EnsureResult :=
  match jsGet st.players pid with
  | some p => (st, ⟨false, p⟩)
  | none =>
    if truthyStr desiredName then
      let (nm, st1) := sanitizeName st (desiredName.getD [])
      ({ st1 with players := jsSet st1.players pid ⟨nm, 0⟩ }, ⟨true, ⟨nm, 0⟩⟩)
    else
      let n := st.joinCounter + 1
      let nm := "Player ".toList ++ (toString n).toList
      ({ st with joinCounter := n, players := jsSet st.players pid ⟨nm, 0⟩ },
       ⟨true, ⟨nm, 0⟩⟩)

/-- The function `recordSubmission(playerId, rawWord)`: only while a collecting round
exists; overwrites the player's previous submission. -/
def recordSubmission (st : GState) (pid : PlayerId) (raw : JStr) : GState × Bool :=
  match st.round with
  | some r =>
    match r.status with
    | .collecting =>
      ({ st with round := some { r with submissions := jsSet r.submissions pid raw } }, true)
    | .revealed => (st, false)
  | none => (st, false)

/-- The `{ name, changed }` object returned by `renamePlayer`
(`name` is `null` when the player does not exist). -/
structure RenameResult where
  name : Option JStr
  changed : Bool
deriving DecidableEq

/-- The function `renamePlayer(playerId, newName)`. -/
def renamePlayer (st : GState) (pid : PlayerId) (newName : JStr) :
    GState × RenameResult :=
  match jsGet st.players pid with
  | none => (st, ⟨none, false⟩)
  | some p =>
    let (clean, st1) := sanitizeName st newName
    if clean ≠ p.name then
      ({ st1 with players := jsSet st1.players pid { p with name := clean } },
       ⟨some clean, true⟩)
    else (st1, ⟨some clean, false⟩)

/-- The function `removePlayer(playerId)`. -/
def removePlayer (st : GState) (pid : PlayerId) : GState :=
  { st with players := jsDelete st.players pid }

/-! ## Faithful plain-object model of the `counts` table

`closeRound`'s `counts` is a plain JS object (`const counts = {}`), so
indexing resolves through the prototype chain.  Normalized words contain
no ASCII uppercase letter (`normalizeWord` lower-cases, and collapsing
inserts only spaces), and the only `Object.prototype` member names
without an uppercase letter are `constructor` and `__proto__`; every
other normalized word behaves like a clean map key.  A read of
`counts["constructor"]` (resp. `counts["__proto__"]`) that finds no own
property yields the inherited `Object` constructor function (resp.
`Object.prototype`), both truthy, so `(counts[k] || 0) + 1`
string-concatenates instead of counting; an assignment to `__proto__`
with a primitive value goes through the inherited accessor and is a
silent no-op, so that key never becomes an own property and
`Object.entries` omits it.  `Math.max(v - 1, 0)` on the resulting
non-numeric strings and on the inherited objects is `NaN`.  Property
order is modelled as insertion order (the normalized words exercised
here are not array indices). -/

/-- An own-property value of the `counts` object: a number, or one of
the concatenation strings produced through the prototype chain. -/
inductive JsTally where
  | num (n : Nat)
  | str (s : JStr)
deriving DecidableEq

/-- The result of reading `counts[k]` on the plain object: an own
property, `undefined`, or (for the two lowercase `Object.prototype`
keys) the inherited object. -/
inductive JsRead where
  | undefined
  | num (n : Nat)
  | str (s : JStr)
  | protoObj
  | protoCtor
deriving DecidableEq

/-- A JS number that is a nonnegative integer or `NaN`. -/
inductive JsPts where
  | num (n : Nat)
  | nan
deriving DecidableEq

/-- A player score after `score += pts`: an integer or `NaN`. -/
inductive JsScore where
  | num (n : Nat)
  | nan
deriving DecidableEq

/-- Node's `String(Object.prototype.constructor)`. -/
def objectCtorToString : JStr :=
  "function Object() \x7b [native code] \x7d".toList

/-- Reading `cnts[k]` on the plain object: the own property if present,
else the prototype chain (`__proto__` resolves to `Object.prototype`,
`constructor` to the `Object` function), else `undefined`. -/
def objRead (cnts : List (JStr × JsTally)) (k : JStr) : JsRead :=
  match jsGet cnts k with
  | some (.num n) => .num n
  | some (.str s) => .str s
  | none =>
    if k = "__proto__".toList then .protoObj
    else if k = "constructor".toList then .protoCtor
    else .undefined

/-- Assigning `cnts[k] = v` on the plain object: assigning a primitive
through the inherited `__proto__` accessor is a silent no-op; every
other key becomes (or overwrites) an own property. -/
def objWrite (cnts : List (JStr × JsTally)) (k : JStr) (v : JsTally) :
    List (JStr × JsTally) :=
  if k = "__proto__".toList then cnts else jsSet cnts k v

/-- JS `(v || 0) + 1` for a value read from the counts object: numbers
increment, `undefined` and `""` start at 1, and the truthy inherited
objects and nonempty strings string-concatenate (the inherited objects
stringify first). -/
def tallyIncr (v : JsRead) : JsTally :=
  match v with
  | .undefined => .num 1
  | .num n => .num (n + 1)
  | .str s => if s = [] then .num 1 else .str (s ++ "1".toList)
  | .protoObj => .str ("[object Object]1".toList)
  | .protoCtor => .str (objectCtorToString ++ "1".toList)

/-- JS `Math.max((v || 0) - 1, 0)` for a value read from the counts
object: clamped subtraction on numbers, `NaN` on the inherited objects
and on the nonempty strings (the only nonempty strings the table can
hold are the non-numeric concatenation strings). -/
def ptsOfRead (v : JsRead) : JsPts :=
  match v with
  | .undefined => .num 0
  | .num n => .num (n - 1)
  | .str s => if s = [] then .num 0 else .nan
  | .protoObj => .nan
  | .protoCtor => .nan

/-- JS `Math.max(freq - 1, 0)` on a raw own-property value (the
`results` projection of `closeRound`). -/
def ptsOfTally (v : JsTally) : JsPts :=
  match v with
  | .num n => .num (n - 1)
  | .str s => if s = [] then .num 0 else .nan

/-- The `counts` loop of `closeRound` over the faithful plain-object
semantics: read through the prototype, `(… || 0) + 1`, write back. -/
def buildCountsObj (vals : List JStr) : List (JStr × JsTally) :=
  vals.foldl
    (fun cnts w =>
      let k := normalizeWord w
      objWrite cnts k (tallyIncr (objRead cnts k)))
    []

/-- JS `score + pts` where `pts` may be `NaN`. -/
def jsScoreAdd (s : JsScore) (p : JsPts) : JsScore :=
  match s, p with
  | .num a, JsPts.num b => .num (a + b)
  | _, _ => .nan

/-- The scoring loop of `closeRound` over the faithful plain-object
counts, tracking each registered player's score (names are elided: the
loop touches only `score`). -/
def awardPointsObj (scores : List (PlayerId × JsScore))
    (cnts : List (JStr × JsTally)) (subs : List (PlayerId × JStr)) :
    List (PlayerId × JsScore) :=
  subs.foldl
    (fun ps pw =>
      let pts := ptsOfRead (objRead cnts (normalizeWord pw.2))
      match jsGet ps pw.1 with
      | some s => jsSet ps pw.1 (jsScoreAdd s pts)
      | none => ps)
    scores

/-- A `results` row over the faithful model. -/
structure ResultRowObj where
  word : JStr
  freq : JsTally
  pointsPerPlayer : JsPts
deriving DecidableEq

/-- The `results` projection `Object.entries(counts).map(...)` over the
faithful model: one row per OWN enumerable property, so an
inherited-only key such as `__proto__` never appears. -/
def resultsObj (cnts : List (JStr × JsTally)) : List ResultRowObj :=
  cnts.map fun wf => ResultRowObj.mk wf.1 wf.2 (ptsOfTally wf.2)

theorem jsGet_map_val [DecidableEq κ] (m : List (κ × α)) (f : α → β) (k : κ) :
    jsGet (m.map fun kv => (kv.1, f kv.2)) k = (jsGet m k).map f := by
  induction m with
  | nil => simp [jsGet]
  | cons kv rest ih =>
    obtain ⟨k', v'⟩ := kv
    by_cases h : k' = k <;> simp [jsGet, h, ih]

theorem jsSet_map_val [DecidableEq κ] (m : List (κ × α)) (f : α → β) (k : κ) (v : α) :
    jsSet (m.map fun kv => (kv.1, f kv.2)) k (f v) =
      (jsSet m k v).map fun kv => (kv.1, f kv.2) := by
  induction m with
  | nil => simp [jsSet]
  | cons kv rest ih =>
    obtain ⟨k', v'⟩ := kv
    by_cases h : k' = k <;> simp [jsSet, h, ih]

/-- Away from the two lowercase-reachable `Object.prototype` keys the
faithful plain-object tally agrees with the pure-map idealization used
inside `closeRound`; this is why the claims proved over `closeRound`
below are insensitive to the idealization. -/
theorem buildCountsObj_agrees (vals : List JStr)
    (h : ∀ w ∈ vals, normalizeWord w ≠ "constructor".toList ∧
      normalizeWord w ≠ "__proto__".toList) :
    buildCountsObj vals =
      (buildCounts vals).map fun kv => (kv.1, JsTally.num kv.2) := by
  suffices haux : ∀ (vs : List JStr) (acc : List (JStr × Nat)),
      (∀ w ∈ vs, normalizeWord w ≠ "constructor".toList ∧
        normalizeWord w ≠ "__proto__".toList) →
      vs.foldl
        (fun cnts w =>
          let k := normalizeWord w
          objWrite cnts k (tallyIncr (objRead cnts k)))
        (acc.map fun kv => (kv.1, JsTally.num kv.2)) =
      (vs.foldl (fun c w => bumpCount c (normalizeWord w)) acc).map
        fun kv => (kv.1, JsTally.num kv.2) by
    simpa [buildCountsObj, buildCounts] using haux vals [] h
  intro vs
  induction vs with
  | nil =>
    intro acc _
    simp
  | cons w rest ih =>
    intro acc hv
    have hw := hv w (List.mem_cons_self w rest)
    have hrest : ∀ x ∈ rest, normalizeWord x ≠ "constructor".toList ∧
        normalizeWord x ≠ "__proto__".toList :=
      fun x hx => hv x (List.mem_cons_of_mem w hx)
    simp only [List.foldl_cons]
    have hstep :
        objWrite (acc.map fun kv => (kv.1, JsTally.num kv.2)) (normalizeWord w)
          (tallyIncr (objRead (acc.map fun kv => (kv.1, JsTally.num kv.2))
            (normalizeWord w))) =
        (bumpCount acc (normalizeWord w)).map fun kv => (kv.1, JsTally.num kv.2) := by
      unfold objWrite objRead bumpCount tallyIncr
      rw [if_neg hw.2, jsGet_map_val]
      cases hk : jsGet acc (normalizeWord w) with
      | none =>
        simp only [Option.map_none, hw.1, hw.2, if_false, hk, Option.getD_none]
        exact jsSet_map_val acc (fun n => JsTally.num n) (normalizeWord w) 1
      | some n =>
        simp only [Option.map_some, hk, Option.getD_some]
        exact jsSet_map_val acc (fun n => JsTally.num n) (normalizeWord w) (n + 1)
    rw [hstep]
    exact ih (bumpCount acc (normalizeWord w)) hrest

/-! ## Server layer (`server/index.mjs`): messages, handlers, trace machine -/

abbrev SocketId := Nat

/-- A `round_revealed` per-player summary row:
`{ id, name, submitted, word, pointsGained, totalScore }`. -/
structure PPRow where
  id : PlayerId
  name : JStr
  submitted : Bool
  word : JStr
  pointsGained : Nat
  totalScore : Nat
deriving DecidableEq

/-- The outbound WebSocket messages of `server/index.mjs`, with exactly
the fields the code serializes. -/
inductive Msg where
  | roundStarted (gs : GameTag) (round : Option PublicRound)
  | playersOverview (gs : GameTag) (players : List OverviewRow)
  | roundProgress (submittedIds : List PlayerId) (gs : GameTag)
  | roundRevealed (gs : GameTag) (round : Option PublicRound)
      (results : List ResultRow) (lb : List LBRow) (perPlayerRound : List PPRow)
  | gameReset (gs : GameTag) (round : Option PublicRound) (lb : List LBRow)
  | leaderboardMsg (lb : List LBRow) (gs : GameTag)
  | submissionCount (count : Nat) (gs : GameTag)
  | viewerHelloAck (gs : GameTag) (round : Option PublicRound)
      (lb : List LBRow) (submittedIds : List PlayerId)
  | hostHelloAck (gs : GameTag) (round : Option PublicRound)
      (lb : List LBRow) (subCount : Nat)
  | helloAck (pid : PlayerId) (name : JStr) (round : Option PublicRound)
      (lb : List LBRow) (alreadySubmitted : Bool)
      (submittedIds : List PlayerId) (gs : GameTag)
  | renameAck (name : Option JStr)
  | submitAck (gs : GameTag)
  | submitReject (reason : RejectReason) (gs : GameTag)
deriving DecidableEq

/-- One send performed by a handler: a unicast on the acting socket
(`ws.send`), `broadcastAll`, or `broadcastHosts`. -/
inductive Emit where
  | uni (sid : SocketId) (m : Msg)
  | toAll (m : Msg)
  | toHosts (m : Msg)
deriving DecidableEq

/-- The snapshot `Array.from(state.round.submissions.keys())` when a round exists and
the game is collecting, else `[]` (the `submittedIds` snapshot sent in
hello acks). -/
def submittedIdsSnapshot (st : GState) : List PlayerId :=
  match st.round with
  | some r => if gameState st = .collecting then r.submissions.map Prod.fst else []
  | none => []

/-- The count `state.round?.submissions.size || 0`. -/
def submissionSize (st : GState) : Nat :=
  match st.round with
  | some r => r.submissions.length
  | none => 0

/-- The `hello` handler for `role: 'viewer'`: unicast
`viewer_hello_ack` only. -/
def wsHelloViewer (st : GState) (sid : SocketId) : GState × List Emit :=
  (st, [.uni sid (.viewerHelloAck (gameState st) (publicRound st) (getLeaderboard st)
         (submittedIdsSnapshot st))])

/-- The `hello` handler for `role: 'host'`: unicast `host_hello_ack`
then a unicast `players_overview` with raw words. -/
def wsHelloHost (st : GState) (sid : SocketId) : GState × List Emit :=
  (st, [.uni sid (.hostHelloAck (gameState st) (publicRound st) (getLeaderboard st)
          (submissionSize st)),
        .uni sid (.playersOverview (gameState st) (getPlayersOverview st true))])

/-- The `hello` handler for players: `ensurePlayer`, then unicast
`hello_ack`, then `leaderboard`, `submission_count` broadcasts and the
host-only `players_overview`. -/
def wsHelloPlayer (st : GState) (sid : SocketId) (pid : PlayerId)
    (desiredName : Option JStr) : GState × List Emit :=
  let (st1, er) := ensurePlayer st pid desiredName
  let gs := gameState st1
  let already : Bool := match st1.round with
    | some r => jsHas r.submissions pid
    | none => false
  (st1,
   [.uni sid (.helloAck pid er.player.name (publicRound st1) (getLeaderboard st1)
      already (submittedIdsSnapshot st1) gs),
    .toAll (.leaderboardMsg (getLeaderboard st1) gs),
    .toAll (.submissionCount (submissionSize st1) gs),
    .toHosts (.playersOverview gs (getPlayersOverview st1 true))])

/-- The `rename` handler: unicast `rename_ack`, then (only when the name
changed) `leaderboard` broadcast and host `players_overview`. -/
def wsRename (st : GState) (sid : SocketId) (pid : PlayerId) (newName : JStr) :
    GState × List Emit :=
  let (st1, rr) := renamePlayer st pid newName
  (st1,
   .uni sid (.renameAck rr.name) ::
     (if rr.changed then
        [.toAll (.leaderboardMsg (getLeaderboard st1) (gameState st1)),
         .toHosts (.playersOverview (gameState st1) (getPlayersOverview st1 true))]
      else []))

/-- The `submit` handler (already gated on a collecting round): validate
against the prompt, unicast `submit_reject` on failure, else record and
unicast `submit_ack` before the `submission_count` / `round_progress`
broadcasts and the host overview. -/
def wsSubmitCollecting (st : GState) (sid : SocketId) (pid : PlayerId)
    (r : Round) (word : Option JStr) : GState × List Emit :=
  let raw := word.getD []   -- typeof msg.word === "string" ? msg.word : ""
  match validateAssociation r.prompt raw with
  | some reason => (st, [.uni sid (.submitReject reason (gameState st))])
  | none =>
    let (st1, _) := recordSubmission st pid raw
    let gs := gameState st1
    let subs := (st1.round.map Round.submissions).getD []
    (st1,
     [.uni sid (.submitAck gs),
      .toAll (.submissionCount subs.length gs),
      .toAll (.roundProgress (subs.map Prod.fst) gs),
      .toHosts (.playersOverview gs (getPlayersOverview st1 true))])

/-- The `submit` message including its guard
(`playerId && state.round && state.round.status === "collecting"`);
outside a collecting round the message is silently ignored. -/
def wsSubmit (st : GState) (sid : SocketId) (pid : PlayerId) (word : Option JStr) :
    GState × List Emit :=
  match st.round with
  | some r =>
    match r.status with
    | .collecting => wsSubmitCollecting st sid pid r word
    | .revealed => (st, [])
  | none => (st, [])

/-- The `ws.on('close')` handler for a player socket: remove the player,
host overview, then a `leaderboard` broadcast. -/
def wsPlayerClose (st : GState) (pid : PlayerId) : GState × List Emit :=
  let st1 := removePlayer st pid
  (st1,
   [.toHosts (.playersOverview (gameState st1) (getPlayersOverview st1 true)),
    .toAll (.leaderboardMsg (getLeaderboard st1) (gameState st1))])

/-- The HTTP response of `/api/host/start`. -/
inductive StartResp where
  | errResp (status : Nat) (error : JStr)
  | okResp (round : Option PublicRound) (gs : GameTag)
deriving DecidableEq

/-- The `/api/host/start` handler: a falsy `body.prompt` (missing or
empty) yields a 400 `{error: "prompt required"}` with no state change
and no broadcast; otherwise `startRound` plus the three broadcasts. -/
def apiHostStart (st : GState) (prompt : Option JStr) (rid : Nat) :
    GState × List Emit × StartResp :=
  if !truthyStr prompt then (st, [], .errResp 400 "prompt required".toList)
  else
    let st1 := startRound st rid (prompt.getD [])
    (st1,
     [.toAll (.roundStarted (gameState st1) (publicRound st1)),
      .toHosts (.playersOverview (gameState st1) (getPlayersOverview st1 true)),
      .toAll (.roundProgress [] (gameState st1))],
     .okResp (publicRound st1) (gameState st1))

/-- The `/api/host/close` handler.  `closeRound()` returns only
`{results, leaderboard}`, so the destructured `counts` and `submissions`
bindings are `undefined` and `new Map(submissions)` is the empty map:
every per-player row gets `submitted: false`, `word: ""`,
`pointsGained: 0`. -/
def apiHostClose (st : GState) : GState × List Emit :=
  let (st1, res) := closeRound st
  let subMap : List (PlayerId × JStr) := []
  let perPlayer := st1.players.map fun ip =>
    let raw := jsGet subMap ip.1
    let submitted := raw.isSome
    PPRow.mk ip.1 ip.2.name submitted (raw.getD []) 0 ip.2.score
  (st1,
   [.toAll (.roundRevealed (gameState st1) (publicRound st1) res.results
      res.leaderboard perPlayer),
    .toHosts (.playersOverview (gameState st1) (getPlayersOverview st1 true))])

/-- The `/api/host/reset` handler. -/
def apiHostReset (st : GState) : GState × List Emit :=
  let (st1, lb) := resetGame st
  (st1,
   [.toAll (.gameReset (gameState st1) (publicRound st1) lb),
    .toHosts (.playersOverview (gameState st1) (getPlayersOverview st1 true))])

/-- The role a socket acquires at its handshake (spec §3: the tag is
fixed for the socket's lifetime). -/
inductive Role where
  | host
  | player (pid : PlayerId)
  | viewer
deriving DecidableEq

/-- The whole server: game state, the permanent role tag of every socket
that ever performed a handshake, and the currently connected sockets
(targets of `wss.clients` / `hostSockets`). -/
structure Server where
  game : GState
  roles : List (SocketId × Role)
  connected : List SocketId
deriving DecidableEq

/-- The client/host actions driving the server.  Handshakes (`hello`)
are modelled for fresh sockets only — connection and handshake are one
step, and the role tag is fixed for the socket's lifetime (spec §3).
`rename`/`submit` from sockets that are not players are ignored exactly
as in the code (their `playerId` is `null`). -/
inductive Act where
  | helloViewer (sid : SocketId)
  | helloHost (sid : SocketId)
  | helloPlayer (sid : SocketId) (pid : PlayerId) (desiredName : Option JStr)
  | renameReq (sid : SocketId) (name : JStr)
  | submitReq (sid : SocketId) (word : Option JStr)
  | disconnect (sid : SocketId)
  | httpStart (prompt : Option JStr) (rid : Nat)
  | httpClose
  | httpReset
deriving DecidableEq

/-- One processing step of the single-threaded server loop. -/
def step (sv : Server) (a : Act) : Server × List Emit :=
  match a with
  | .helloViewer sid =>
    if (jsGet sv.roles sid).isSome then (sv, [])
    else
      let (g, ems) := wsHelloViewer sv.game sid
      ({ game := g, roles := jsSet sv.roles sid .viewer,
         connected := sv.connected ++ [sid] }, ems)
  | .helloHost sid =>
    if (jsGet sv.roles sid).isSome then (sv, [])
    else
      let (g, ems) := wsHelloHost sv.game sid
      ({ game := g, roles := jsSet sv.roles sid .host,
         connected := sv.connected ++ [sid] }, ems)
  | .helloPlayer sid pid dn =>
    if (jsGet sv.roles sid).isSome then (sv, [])
    else
      let (g, ems) := wsHelloPlayer sv.game sid pid dn
      ({ game := g, roles := jsSet sv.roles sid (.player pid),
         connected := sv.connected ++ [sid] }, ems)
  | .renameReq sid name =>
    match jsGet sv.roles sid with
    | some (.player pid) =>
      if sid ∈ sv.connected then
        let (g, ems) := wsRename sv.game sid pid name
        ({ sv with game := g }, ems)
      else (sv, [])
    | _ => (sv, [])
  | .submitReq sid word =>
    match jsGet sv.roles sid with
    | some (.player pid) =>
      if sid ∈ sv.connected then
        let (g, ems) := wsSubmit sv.game sid pid word
        ({ sv with game := g }, ems)
      else (sv, [])
    | _ => (sv, [])
  | .disconnect sid =>
    if sid ∈ sv.connected then
      let conn1 := sv.connected.filter (fun s => s ≠ sid)
      match jsGet sv.roles sid with
      | some (.player pid) =>
        let (g, ems) := wsPlayerClose sv.game pid
        ({ game := g, roles := sv.roles, connected := conn1 }, ems)
      | _ => ({ sv with connected := conn1 }, [])
    else (sv, [])
  | .httpStart prompt rid =>
    let (g, ems, _) := apiHostStart sv.game prompt rid
    ({ sv with game := g }, ems)
  | .httpClose =>
    let (g, ems) := apiHostClose sv.game
    ({ sv with game := g }, ems)
  | .httpReset =>
    let (g, ems) := apiHostReset sv.game
    ({ sv with game := g }, ems)

/-- Fan-out of one emission to the sockets that receive it: a unicast
reaches the acting socket, `broadcastAll` every connected socket,
`broadcastHosts` the connected host sockets. -/
def fanOut (sv : Server) (e : Emit) : List (SocketId × Msg) :=
  match e with
  | .uni sid m => [(sid, m)]
  | .toAll m => sv.connected.map fun s => (s, m)
  | .toHosts m =>
    (sv.connected.filter fun s => jsGet sv.roles s = some Role.host).map fun s => (s, m)

/-- All `(receiver, message)` deliveries of one step. -/
def stepDeliveries (sv : Server) (a : Act) : List (SocketId × Msg) :=
  ((step sv a).2.map (fanOut (step sv a).1)).flatten

/-- Run a list of actions. -/
def runServer (sv : Server) : List Act → Server
  | [] => sv
  | a :: rest => runServer (step sv a).1 rest

/-- All deliveries over a run. -/
def runDeliveries (sv : Server) : List Act → List (SocketId × Msg)
  | [] => []
  | a :: rest => stepDeliveries sv a ++ runDeliveries (step sv a).1 rest

/-- The freshly booted server. -/
def initServer : Server := ⟨⟨none, [], 0⟩, [], []⟩

/-- The fields of a message that carry a player's raw submitted word:
the `word` column of a `players_overview` row, and the `word` of a
`round_revealed` per-player row flagged as submitted.  All other
messages contain no raw-word field at all (leaderboards carry
id/name/score, progress messages carry ids and counts, `results`
carries normalized words). -/
def rawWordFields : Msg → List JStr
  | .playersOverview _ rows => rows.filterMap OverviewRow.word
  | .roundRevealed _ _ _ _ pp => (pp.filter PPRow.submitted).map PPRow.word
  | _ => []

/-! ## Claim theorems -/

/-- C2: for every pair of raw strings, `validateAssociation` accepts
exactly when the spec's reference decision procedure (`refAccepts`)
accepts, and on the spec's examples: prompt "Dachziegel" rejects "Dach"
and "Ziegel" but accepts "Ziege"; prompt "Katze Haus" rejects "Katze"
but accepts "Haustier". -/
theorem validator_matches_reference :
    (∀ p c : JStr, validateAssociation p c = none ↔ refAccepts p c = true) ∧
    validateAssociation "Dachziegel".toList "Dach".toList ≠ none ∧
    validateAssociation "Dachziegel".toList "Ziegel".toList ≠ none ∧
    validateAssociation "Dachziegel".toList "Ziege".toList = none ∧
    validateAssociation "Katze Haus".toList "Katze".toList ≠ none ∧
    validateAssociation "Katze Haus".toList "Haustier".toList = none := by
  refine ⟨fun p c => ?_, by decide, by decide, by decide, by decide, by decide⟩
  by_cases h1 : vNorm c = []
  · simp [validateAssociation, refAccepts, h1]
  · by_cases h2 : vNorm c = vNorm p
    · simp only [validateAssociation, refAccepts, h1, h2]
      simp only [if_false, if_true, eq_self_iff_true]
      split <;> simp
    · by_cases h3 : (splitTokens (vNorm p)).length > 1
      · by_cases h4 : (splitTokens (vNorm p)).any (fun t => vNorm c = t) <;>
          simp [validateAssociation, refAccepts, h1, h2, h3, h4]
      · by_cases h5 : 4 ≤ (vNorm c).length &&
            ((vNorm c).isPrefixOf (vNorm p) || (vNorm c).isSuffixOf (vNorm p)) <;>
          simp [validateAssociation, refAccepts, h1, h2, h3, h5]

/-- C8: a host start request whose body has no usable prompt (missing or
empty) is answered with status 400 and `{error: "prompt required"}`,
emits nothing, and leaves the whole state untouched. -/
theorem host_start_missing_prompt (st : GState) (prompt : Option JStr) (rid : Nat)
    (h : prompt = none ∨ prompt = some []) :
    apiHostStart st prompt rid = (st, [], .errResp 400 "prompt required".toList) := by
  rcases h with rfl | rfl <;> simp [apiHostStart, truthyStr]

/-- Witness for `host_start_missing_prompt` at a nonempty concrete
state. -/
theorem host_start_missing_prompt_witness :
    apiHostStart ⟨some ⟨7, "Obst".toList, .collecting, []⟩, [(1, ⟨"P1".toList, 3⟩)], 1⟩
        (some []) 0 =
      (⟨some ⟨7, "Obst".toList, .collecting, []⟩, [(1, ⟨"P1".toList, 3⟩)], 1⟩, [],
       .errResp 400 "prompt required".toList) :=
  host_start_missing_prompt _ (some []) 0 (Or.inr rfl)

/-- C4: `closeRound` is idempotent: the second of two consecutive calls
changes nothing and returns empty results, and a call with no round is
likewise a no-op with empty results. -/
theorem closeRound_idempotent :
    (∀ st : GState,
      closeRound (closeRound st).1 =
        ((closeRound st).1, ⟨[], getLeaderboard (closeRound st).1⟩)) ∧
    (∀ st : GState, st.round = none → closeRound st = (st, ⟨[], getLeaderboard st⟩)) := by
  constructor
  · intro st
    match hst : st.round with
    | none => simp [closeRound, hst]
    | some r =>
      match hs : r.status with
      | .revealed => simp [closeRound, hst, hs]
      | .collecting => simp [closeRound, hst, hs]
  · intro st h
    simp [closeRound, h]

/-- Witness for `closeRound_idempotent` (second conjunct) on the idle
state. -/
theorem closeRound_idempotent_witness :
    closeRound ⟨none, [(1, ⟨"P1".toList, 2⟩)], 1⟩ =
      (⟨none, [(1, ⟨"P1".toList, 2⟩)], 1⟩, ⟨[], [⟨1, "P1".toList, 2⟩]⟩) := by
  have h := closeRound_idempotent.2 ⟨none, [(1, ⟨"P1".toList, 2⟩)], 1⟩ rfl
  rw [h]
  rfl

/-- C6: `recordSubmission` does nothing (and returns `false`) unless a
collecting round exists; on a collecting round it overwrites the acting
player's binding, leaves every other binding alone, and keeps the
one-word-per-player invariant. -/
theorem recordSubmission_spec :
    (∀ (st : GState) (pid : PlayerId) (w : JStr), gameState st ≠ .collecting →
      recordSubmission st pid w = (st, false)) ∧
    (∀ (st : GState) (r : Round) (pid : PlayerId) (w : JStr),
      st.round = some r → r.status = .collecting →
      recordSubmission st pid w =
        ({ st with round := some { r with submissions := jsSet r.submissions pid w } },
         true) ∧
      jsGet (jsSet r.submissions pid w) pid = some w ∧
      (∀ q, q ≠ pid → jsGet (jsSet r.submissions pid w) q = jsGet r.submissions q) ∧
      (keysNodup r.submissions → keysNodup (jsSet r.submissions pid w))) := by
  constructor
  · intro st pid w h
    match hst : st.round with
    | none => simp [recordSubmission, hst]
    | some r =>
      match hs : r.status with
      | .collecting => exact absurd (by simp [gameState, hst, hs]) h
      | .revealed => simp [recordSubmission, hst, hs]
  · intro st r pid w hr hs
    refine ⟨by simp [recordSubmission, hr, hs], jsGet_jsSet_self .., ?_, ?_⟩
    · intro q hq
      exact jsGet_jsSet_ne _ _ _ _ hq
    · intro h
      exact keysNodup_jsSet _ _ _ h

/-- Witness for `recordSubmission_spec` at concrete inputs: rejected on
a revealed round; the overwrite on a collecting round. -/
theorem recordSubmission_spec_witness :
    recordSubmission ⟨some ⟨0, "Obst".toList, .revealed, []⟩, [], 0⟩ 1 "x".toList =
      (⟨some ⟨0, "Obst".toList, .revealed, []⟩, [], 0⟩, false) ∧
    jsGet (jsSet ([(1, "alt".toList)] : List (PlayerId × JStr)) 1 "neu".toList) 1 =
      some "neu".toList :=
  ⟨recordSubmission_spec.1 _ 1 _ (by decide),
   (recordSubmission_spec.2 ⟨some ⟨0, "Obst".toList, .collecting, [(1, "alt".toList)]⟩,
      [], 0⟩ ⟨0, "Obst".toList, .collecting, [(1, "alt".toList)]⟩ 1 "neu".toList
      rfl rfl).2.1⟩

/-- C5: `resetGame` clears the round (back to idle), empties the player
registry (empty returned leaderboard) and resets the join counter, so
the next `ensurePlayer` without a usable desired name (absent, falsy, or
sanitizing to empty) assigns the default name "Player 1". -/
theorem resetGame_spec :
    (∀ st : GState, resetGame st = (⟨none, [], 0⟩, [])) ∧
    (∀ st : GState, gameState (resetGame st).1 = .idle) ∧
    (∀ (st : GState) (pid : PlayerId) (d : Option JStr),
      truthyStr d = false ∨ (∃ s, d = some s ∧ nameClean s = []) →
      (ensurePlayer (resetGame st).1 pid d).2.player.name = "Player 1".toList) := by
  refine ⟨fun st => rfl, fun st => rfl, fun st pid d hd => ?_⟩
  have hreset : (resetGame st).1 = ⟨none, [], 0⟩ := rfl
  rw [hreset]
  rcases hd with hf | ⟨s, rfl, hs⟩
  · simp [ensurePlayer, jsGet, hf]
    decide
  · by_cases he : truthyStr (some s)
    · simp [ensurePlayer, jsGet, he, sanitizeName, hs]
      decide
    · simp [ensurePlayer, jsGet, he]
      decide

/-- Witness for `resetGame_spec`: after a reset of a populated state,
a join with a desired name of pure whitespace still gets "Player 1". -/
theorem resetGame_spec_witness :
    (ensurePlayer (resetGame ⟨some ⟨3, "Obst".toList, .revealed, []⟩,
        [(4, ⟨"Alice".toList, 7⟩)], 4⟩).1 9 (some "   ".toList)).2.player.name =
      "Player 1".toList :=
  resetGame_spec.2.2 _ 9 (some "   ".toList) (Or.inr ⟨"   ".toList, rfl, by decide⟩)

theorem mem_jsTrim (s : JStr) (c : Char) (h : c ∈ jsTrim s) : c ∈ s := by
  unfold jsTrim at h
  rw [List.mem_reverse] at h
  have h1 := (List.dropWhile_suffix (l := (s.dropWhile isJsWhitespace).reverse)
    isJsWhitespace).sublist.subset h
  rw [List.mem_reverse] at h1
  exact (List.dropWhile_suffix isJsWhitespace).sublist.subset h1

theorem mem_collapseWsAux (s : JStr) (b : Bool) (c : Char)
    (h : c ∈ collapseWsAux s b) : c = ' ' ∨ c ∈ s := by
  induction s generalizing b with
  | nil => simp [collapseWsAux] at h
  | cons d rest ih =>
    by_cases hd : isJsWhitespace d
    · cases b with
      | true =>
        simp only [collapseWsAux, hd, if_true] at h
        rcases ih true h with h1 | h1
        · exact Or.inl h1
        · exact Or.inr (List.mem_cons_of_mem d h1)
      | false =>
        simp only [collapseWsAux, hd, if_true] at h
        rcases List.mem_cons.mp h with h1 | h1
        · exact Or.inl h1
        · rcases ih true h1 with h2 | h2
          · exact Or.inl h2
          · exact Or.inr (List.mem_cons_of_mem d h2)
    · simp only [collapseWsAux, hd, if_false] at h
      rcases List.mem_cons.mp h with h1 | h1
      · exact Or.inr (h1 ▸ List.mem_cons_self d rest)
      · rcases ih false h1 with h2 | h2
        · exact Or.inl h2
        · exact Or.inr (List.mem_cons_of_mem d h2)

theorem nameClean_no_controls (name : JStr) (c : Char) (h : c ∈ nameClean name) :
    isC0orDel c = false := by
  unfold nameClean collapseWs at h
  rcases mem_collapseWsAux _ _ _ h with h1 | h1
  · subst h1
    decide
  · have h2 := mem_jsTrim _ _ h1
    have h3 := List.of_mem_filter h2
    simpa using h3

/-- C7: `sanitizeName` is the strip-controls / trim / collapse pipeline
followed by the 24-character crop, with the sequential fallback
(consuming a counter increment) when the cleaned name is empty; the
result never exceeds 24 characters and never contains C0/DEL controls;
the spec's example `"  A\u0001B   C  "` sanitizes to `"AB C"`; and
`renamePlayer` reports `changed = false` exactly when the sanitized
result equals the player's current name. -/
theorem sanitizeName_spec :
    (∀ (st : GState) (name : JStr), nameClean name ≠ [] →
      sanitizeName st name = ((nameClean name).take 24, st)) ∧
    (∀ (st : GState) (name : JStr), nameClean name = [] →
      sanitizeName st name =
        (("Player ".toList ++ (toString (st.joinCounter + 1)).toList).take 24,
         { st with joinCounter := st.joinCounter + 1 })) ∧
    (∀ (st : GState) (name : JStr), (sanitizeName st name).1.length ≤ 24) ∧
    (∀ (name : JStr) (c : Char), c ∈ nameClean name → isC0orDel c = false) ∧
    sanitizeName ⟨none, [], 0⟩ "  A\x01B   C  ".toList = ("AB C".toList, ⟨none, [], 0⟩) ∧
    (∀ (st : GState) (pid : PlayerId) (p : Player) (nm : JStr),
      jsGet st.players pid = some p →
      ((renamePlayer st pid nm).2.changed = false ↔ (sanitizeName st nm).1 = p.name)) := by
  refine ⟨?_, ?_, ?_, nameClean_no_controls, by decide, ?_⟩
  · intro st name h
    simp [sanitizeName, h]
  · intro st name h
    simp [sanitizeName, h]
  · intro st name
    unfold sanitizeName
    by_cases h : nameClean name = [] <;>
      simp [h, List.length_take]
  · intro st pid p nm hget
    unfold renamePlayer
    rw [hget]
    by_cases hch : (sanitizeName st nm).1 = p.name <;> simp [hch]

/-- Witness for `sanitizeName_spec`: the non-fallback branch on a
concrete name, and the rename-iff at a concrete registered player. -/
theorem sanitizeName_spec_witness :
    sanitizeName ⟨none, [], 5⟩ "Bob".toList =
      (("Bob".toList).take 24, ⟨none, [], 5⟩) ∧
    ((renamePlayer ⟨none, [(3, ⟨"Bob".toList, 0⟩)], 5⟩ 3 " Bob ".toList).2.changed
        = false ↔
      (sanitizeName ⟨none, [(3, ⟨"Bob".toList, 0⟩)], 5⟩ " Bob ".toList).1 = "Bob".toList) :=
  ⟨sanitizeName_spec.1 _ _ (by decide),
   sanitizeName_spec.2.2.2.2.2 _ 3 ⟨"Bob".toList, 0⟩ _ (by decide)⟩

/-! ## Intended submission frequency -/

/-- The number of submissions whose normalized word is `w` - the
intended frequency of spec 4.4 (`max(frequency - 1, 0)` points per
submitter). -/
def subFreq (subs : List (PlayerId × JStr)) (w : JStr) : Nat :=
  ((subs.map Prod.snd).map normalizeWord).count w

/-- The acting socket of a client-originated message, if any
(host-control HTTP requests have none). -/
def actingSid : Act → Option SocketId
  | .helloViewer sid => some sid
  | .helloHost sid => some sid
  | .helloPlayer sid _ _ => some sid
  | .renameReq sid _ => some sid
  | .submitReq sid _ => some sid
  | .disconnect _ => none
  | .httpStart _ _ => none
  | .httpClose => none
  | .httpReset => none

def isBroadcastEmit : Emit → Bool
  | .uni _ _ => false
  | .toAll _ => true
  | .toHosts _ => true

/-- An emission list that sends all unicasts to `sid` strictly before
any broadcast, with a unicast present whenever a broadcast is. -/
def AcksFirst (sid : SocketId) (ems : List Emit) : Prop :=
  ∃ us bs, ems = us ++ bs ∧
    (∀ e ∈ us, ∃ m, e = Emit.uni sid m) ∧
    (∀ e ∈ bs, isBroadcastEmit e = true) ∧
    (bs ≠ [] → us ≠ [])

theorem acksFirst_nil (sid : SocketId) : AcksFirst sid [] :=
  ⟨[], [], rfl, by simp, by simp, by simp⟩

theorem acksFirst_uni_only (sid : SocketId) (m : Msg) : AcksFirst sid [.uni sid m] :=
  ⟨[.uni sid m], [], by simp, by simp, by simp, by simp⟩

theorem acksFirst_two_unis (sid : SocketId) (m1 m2 : Msg) :
    AcksFirst sid [.uni sid m1, .uni sid m2] := by
  refine ⟨[.uni sid m1, .uni sid m2], [], by simp, ?_, by simp, by simp⟩
  intro e he
  rcases List.mem_cons.mp he with rfl | he1
  · exact ⟨m1, rfl⟩
  · rcases List.mem_cons.mp he1 with rfl | he2
    · exact ⟨m2, rfl⟩
    · cases he2

theorem acksFirst_uni_bcasts (sid : SocketId) (m : Msg) (bs : List Emit)
    (h : ∀ e ∈ bs, isBroadcastEmit e = true) :
    AcksFirst sid (Emit.uni sid m :: bs) := by
  refine ⟨[.uni sid m], bs, by simp, ?_, h, by simp⟩
  intro e he
  rcases List.mem_cons.mp he with rfl | he1
  · exact ⟨m, rfl⟩
  · cases he1

theorem wsRename_acksFirst (st : GState) (sid : SocketId) (pid : PlayerId)
    (name : JStr) : AcksFirst sid (wsRename st sid pid name).2 := by
  unfold wsRename
  refine acksFirst_uni_bcasts sid _ _ ?_
  by_cases hch : (renamePlayer st pid name).2.changed <;>
    simp [hch, isBroadcastEmit]

theorem wsSubmit_acksFirst (st : GState) (sid : SocketId) (pid : PlayerId)
    (word : Option JStr) : AcksFirst sid (wsSubmit st sid pid word).2 := by
  cases hr : st.round with
  | none =>
    simp only [wsSubmit, hr]
    exact acksFirst_nil sid
  | some r =>
    cases hs : r.status with
    | revealed =>
      simp only [wsSubmit, hr, hs]
      exact acksFirst_nil sid
    | collecting =>
      cases hv : validateAssociation r.prompt (word.getD []) with
      | some reason =>
        simp only [wsSubmit, hr, hs, wsSubmitCollecting, hv]
        exact acksFirst_uni_only sid _
      | none =>
        simp only [wsSubmit, hr, hs, wsSubmitCollecting, hv]
        exact acksFirst_uni_bcasts sid _ _ (by simp [isBroadcastEmit])

/-- C9: for every client action carrying an acting socket (hello in all
three roles, rename, submit), the handler's emission sequence places the
acting socket's unicast acknowledgement(s) before every broader
broadcast it triggers. -/
theorem ack_before_broadcasts (sv : Server) (a : Act) (sid : SocketId)
    (h : actingSid a = some sid) : AcksFirst sid (step sv a).2 := by
  cases a with
  | helloViewer sid0 =>
    obtain rfl : sid = sid0 := by simpa [actingSid] using h.symm
    by_cases hg : (jsGet sv.roles sid).isSome
    · simp only [step, if_pos hg]
      exact acksFirst_nil sid
    · simp only [step, if_neg hg, wsHelloViewer]
      exact acksFirst_uni_only sid _
  | helloHost sid0 =>
    obtain rfl : sid = sid0 := by simpa [actingSid] using h.symm
    by_cases hg : (jsGet sv.roles sid).isSome
    · simp only [step, if_pos hg]
      exact acksFirst_nil sid
    · simp only [step, if_neg hg, wsHelloHost]
      exact acksFirst_two_unis sid _ _
  | helloPlayer sid0 pid dn =>
    obtain rfl : sid = sid0 := by simpa [actingSid] using h.symm
    by_cases hg : (jsGet sv.roles sid).isSome
    · simp only [step, if_pos hg]
      exact acksFirst_nil sid
    · simp only [step, if_neg hg, wsHelloPlayer]
      exact acksFirst_uni_bcasts sid _ _ (by simp [isBroadcastEmit])
  | renameReq sid0 name =>
    obtain rfl : sid = sid0 := by simpa [actingSid] using h.symm
    simp only [step]
    match jsGet sv.roles sid with
    | none => exact acksFirst_nil sid
    | some .host => exact acksFirst_nil sid
    | some .viewer => exact acksFirst_nil sid
    | some (.player pid) =>
      by_cases hc : sid ∈ sv.connected
      · simp only [if_pos hc]
        exact wsRename_acksFirst sv.game sid pid name
      · simp only [if_neg hc]
        exact acksFirst_nil sid
  | submitReq sid0 word =>
    obtain rfl : sid = sid0 := by simpa [actingSid] using h.symm
    simp only [step]
    match jsGet sv.roles sid with
    | none => exact acksFirst_nil sid
    | some .host => exact acksFirst_nil sid
    | some .viewer => exact acksFirst_nil sid
    | some (.player pid) =>
      by_cases hc : sid ∈ sv.connected
      · simp only [if_pos hc]
        exact wsSubmit_acksFirst sv.game sid pid word
      · simp only [if_neg hc]
        exact acksFirst_nil sid
  | disconnect sid0 => simp [actingSid] at h
  | httpStart p rid => simp [actingSid] at h
  | httpClose => simp [actingSid] at h
  | httpReset => simp [actingSid] at h

/-- Witness for `ack_before_broadcasts`: a concrete player hello on the
fresh server. -/
theorem ack_before_broadcasts_witness :
    AcksFirst 0 (step initServer (.helloPlayer 0 1 none)).2 :=
  ack_before_broadcasts initServer (.helloPlayer 0 1 none) 0 rfl

theorem fanOut_cases (sv : Server) (e : Emit) (sid : SocketId) (m : Msg)
    (h : (sid, m) ∈ fanOut sv e) :
    e = Emit.uni sid m ∨ (e = Emit.toAll m ∧ sid ∈ sv.connected) ∨
    (e = Emit.toHosts m ∧ jsGet sv.roles sid = some Role.host) := by
  cases e with
  | uni s mm =>
    simp only [fanOut, List.mem_singleton, Prod.mk.injEq] at h
    exact Or.inl (by rw [h.1, h.2])
  | toAll mm =>
    simp only [fanOut, List.mem_map, Prod.mk.injEq] at h
    obtain ⟨s, hs, h1, h2⟩ := h
    subst h1
    subst h2
    exact Or.inr (Or.inl ⟨rfl, hs⟩)
  | toHosts mm =>
    simp only [fanOut, List.mem_map, List.mem_filter, Prod.mk.injEq] at h
    obtain ⟨s, ⟨hs, hrole⟩, h1, h2⟩ := h
    subst h1
    subst h2
    exact Or.inr (Or.inr ⟨rfl, by simpa using hrole⟩)

/-- The `round_revealed` per-player rows always carry
`submitted = false` (the `subMap` is empty because `closeRound` returns
no `submissions` field), so the reveal broadcast has no raw-word
field. -/
theorem perPlayer_rows_no_raw (ps : List (PlayerId × Player)) :
    ((ps.map fun ip =>
        PPRow.mk ip.1 ip.2.name (jsGet ([] : List (PlayerId × JStr)) ip.1).isSome
          ((jsGet ([] : List (PlayerId × JStr)) ip.1).getD []) 0 ip.2.score).filter
      PPRow.submitted) = [] := by
  induction ps with
  | nil => rfl
  | cons ip rest ih =>
    simpa [jsGet] using ih

theorem step_roles_cases (sv : Server) (a : Act) :
    (step sv a).1.roles = sv.roles ∨
    ∃ sid0 r0, jsGet sv.roles sid0 = none ∧
      (step sv a).1.roles = jsSet sv.roles sid0 r0 := by
  cases a with
  | helloViewer sid0 =>
    by_cases hg : (jsGet sv.roles sid0).isSome
    · simp only [step, if_pos hg]
      exact Or.inl (by trivial)
    · simp only [step, if_neg hg]
      exact Or.inr ⟨sid0, .viewer, by simpa using hg, rfl⟩
  | helloHost sid0 =>
    by_cases hg : (jsGet sv.roles sid0).isSome
    · simp only [step, if_pos hg]
      exact Or.inl (by trivial)
    · simp only [step, if_neg hg]
      exact Or.inr ⟨sid0, .host, by simpa using hg, rfl⟩
  | helloPlayer sid0 pid dn =>
    by_cases hg : (jsGet sv.roles sid0).isSome
    · simp only [step, if_pos hg]
      exact Or.inl (by trivial)
    · simp only [step, if_neg hg]
      exact Or.inr ⟨sid0, .player pid, by simpa using hg, rfl⟩
  | renameReq sid0 name =>
    cases hrole : jsGet sv.roles sid0 with
    | none =>
      simp only [step, hrole]
      exact Or.inl (by trivial)
    | some r0 =>
      cases r0 with
      | host =>
        simp only [step, hrole]
        exact Or.inl (by trivial)
      | viewer =>
        simp only [step, hrole]
        exact Or.inl (by trivial)
      | player pid =>
        by_cases hc : sid0 ∈ sv.connected <;>
          simp only [step, hrole, if_pos, if_neg, hc, if_true, if_false] <;>
          exact Or.inl (by trivial)
  | submitReq sid0 word =>
    cases hrole : jsGet sv.roles sid0 with
    | none =>
      simp only [step, hrole]
      exact Or.inl (by trivial)
    | some r0 =>
      cases r0 with
      | host =>
        simp only [step, hrole]
        exact Or.inl (by trivial)
      | viewer =>
        simp only [step, hrole]
        exact Or.inl (by trivial)
      | player pid =>
        by_cases hc : sid0 ∈ sv.connected <;>
          simp only [step, hrole, if_pos, if_neg, hc, if_true, if_false] <;>
          exact Or.inl (by trivial)
  | disconnect sid0 =>
    by_cases hc : sid0 ∈ sv.connected
    · cases hrole : jsGet sv.roles sid0 with
      | none =>
        simp only [step, if_pos hc, hrole]
        exact Or.inl (by trivial)
      | some r0 =>
        cases r0 <;> simp only [step, if_pos hc, hrole] <;> exact Or.inl (by trivial)
    · simp only [step, if_neg hc]
      exact Or.inl (by trivial)
  | httpStart p rid =>
    exact Or.inl (by trivial)
  | httpClose =>
    exact Or.inl (by trivial)
  | httpReset =>
    exact Or.inl (by trivial)

theorem roles_step_monotone (sv : Server) (a : Act) (sid : SocketId) (r : Role)
    (h : jsGet sv.roles sid = some r) :
    jsGet (step sv a).1.roles sid = some r := by
  rcases step_roles_cases sv a with heq | ⟨sid0, r0, hg, heq⟩
  · rw [heq]
    exact h
  · rw [heq]
    have hne : sid ≠ sid0 := by
      rintro rfl
      rw [h] at hg
      cases hg
    rw [jsGet_jsSet_ne _ _ _ _ hne]
    exact h

theorem roles_run_monotone (sv : Server) (acts : List Act) (sid : SocketId) (r : Role)
    (h : jsGet sv.roles sid = some r) :
    jsGet (runServer sv acts).roles sid = some r := by
  induction acts generalizing sv with
  | nil => exact h
  | cons a rest ih => exact ih _ (roles_step_monotone sv a sid r h)

/-- Per-emission safety relative to the post-step role table: every
`broadcastAll` payload has no raw-word field, and every unicast either
has no raw-word field or goes to a socket whose role is `host`. -/
def EmitSafe (roles1 : List (SocketId × Role)) (e : Emit) : Prop :=
  (∀ m0, e = Emit.toAll m0 → rawWordFields m0 = []) ∧
  (∀ sid0 m0, e = Emit.uni sid0 m0 →
    rawWordFields m0 = [] ∨ jsGet roles1 sid0 = some Role.host)

theorem emitSafe_toAll (roles1 : List (SocketId × Role)) (m0 : Msg)
    (h : rawWordFields m0 = []) : EmitSafe roles1 (Emit.toAll m0) := by
  constructor
  · intro m1 heq
    injection heq with h1
    subst h1
    exact h
  · intro sid0 m1 heq
    exact Emit.noConfusion heq

theorem emitSafe_toHosts (roles1 : List (SocketId × Role)) (m0 : Msg) :
    EmitSafe roles1 (Emit.toHosts m0) :=
  ⟨fun _ heq => Emit.noConfusion heq, fun _ _ heq => Emit.noConfusion heq⟩

theorem emitSafe_uni_safe (roles1 : List (SocketId × Role)) (sid : SocketId) (m0 : Msg)
    (h : rawWordFields m0 = []) : EmitSafe roles1 (Emit.uni sid m0) := by
  constructor
  · intro m1 heq
    exact Emit.noConfusion heq
  · intro sid0 m1 heq
    injection heq with h1 h2
    subst h2
    exact Or.inl h

theorem emitSafe_uni_host (roles1 : List (SocketId × Role)) (sid : SocketId) (m0 : Msg)
    (h : jsGet roles1 sid = some Role.host) : EmitSafe roles1 (Emit.uni sid m0) := by
  constructor
  · intro m1 heq
    exact Emit.noConfusion heq
  · intro sid0 m1 heq
    injection heq with h1 h2
    subst h1
    exact Or.inr h

theorem step_emits_safe (sv : Server) (a : Act) (e : Emit)
    (he : e ∈ (step sv a).2) : EmitSafe (step sv a).1.roles e := by
  cases a with
  | helloViewer sid0 =>
    by_cases hg : (jsGet sv.roles sid0).isSome
    · simp only [step, if_pos hg] at he
      exact absurd he (List.not_mem_nil e)
    · simp only [step, if_neg hg, wsHelloViewer, List.mem_singleton] at he
      subst he
      exact emitSafe_uni_safe _ _ _ rfl
  | helloHost sid0 =>
    by_cases hg : (jsGet sv.roles sid0).isSome
    · simp only [step, if_pos hg] at he
      exact absurd he (List.not_mem_nil e)
    · simp only [step, if_neg hg, wsHelloHost, List.mem_cons, List.mem_singleton,
        List.not_mem_nil, or_false] at he
      rcases he with rfl | rfl
      · exact emitSafe_uni_safe _ _ _ rfl
      · refine emitSafe_uni_host _ _ _ ?_
        simp only [step, if_neg hg]
        exact jsGet_jsSet_self _ _ _
  | helloPlayer sid0 pid dn =>
    by_cases hg : (jsGet sv.roles sid0).isSome
    · simp only [step, if_pos hg] at he
      exact absurd he (List.not_mem_nil e)
    · simp only [step, if_neg hg, wsHelloPlayer, List.mem_cons, List.mem_singleton,
        List.not_mem_nil, or_false] at he
      rcases he with rfl | rfl | rfl | rfl
      · exact emitSafe_uni_safe _ _ _ rfl
      · exact emitSafe_toAll _ _ rfl
      · exact emitSafe_toAll _ _ rfl
      · exact emitSafe_toHosts _ _
  | renameReq sid0 name =>
    cases hrole : jsGet sv.roles sid0 with
    | none =>
      simp only [step, hrole] at he
      exact absurd he (List.not_mem_nil e)
    | some r0 =>
      cases r0 with
      | host =>
        simp only [step, hrole] at he
        exact absurd he (List.not_mem_nil e)
      | viewer =>
        simp only [step, hrole] at he
        exact absurd he (List.not_mem_nil e)
      | player pid =>
        by_cases hc : sid0 ∈ sv.connected
        · simp only [step, hrole, if_pos hc, wsRename, List.mem_cons] at he
          rcases he with rfl | he1
          · exact emitSafe_uni_safe _ _ _ rfl
          · by_cases hch : (renamePlayer sv.game pid name).2.changed
            · simp only [hch, if_true, List.mem_cons, List.mem_singleton,
                List.not_mem_nil, or_false] at he1
              rcases he1 with rfl | rfl
              · exact emitSafe_toAll _ _ rfl
              · exact emitSafe_toHosts _ _
            · simp [hch] at he1
        · simp only [step, hrole, if_neg hc] at he
          exact absurd he (List.not_mem_nil e)
  | submitReq sid0 word =>
    cases hrole : jsGet sv.roles sid0 with
    | none =>
      simp only [step, hrole] at he
      exact absurd he (List.not_mem_nil e)
    | some r0 =>
      cases r0 with
      | host =>
        simp only [step, hrole] at he
        exact absurd he (List.not_mem_nil e)
      | viewer =>
        simp only [step, hrole] at he
        exact absurd he (List.not_mem_nil e)
      | player pid =>
        by_cases hc : sid0 ∈ sv.connected
        · simp only [step, hrole, if_pos hc] at he
          cases hr : sv.game.round with
          | none =>
            simp only [wsSubmit, hr] at he
            exact absurd he (List.not_mem_nil e)
          | some r =>
            cases hs : r.status with
            | revealed =>
              simp only [wsSubmit, hr, hs] at he
              exact absurd he (List.not_mem_nil e)
            | collecting =>
              cases hv : validateAssociation r.prompt (word.getD []) with
              | some reason =>
                simp only [wsSubmit, hr, hs, wsSubmitCollecting, hv,
                  List.mem_singleton] at he
                subst he
                exact emitSafe_uni_safe _ _ _ rfl
              | none =>
                simp only [wsSubmit, hr, hs, wsSubmitCollecting, hv, List.mem_cons,
                  List.mem_singleton, List.not_mem_nil, or_false] at he
                rcases he with rfl | rfl | rfl | rfl
                · exact emitSafe_uni_safe _ _ _ rfl
                · exact emitSafe_toAll _ _ rfl
                · exact emitSafe_toAll _ _ rfl
                · exact emitSafe_toHosts _ _
        · simp only [step, hrole, if_neg hc] at he
          exact absurd he (List.not_mem_nil e)
  | disconnect sid0 =>
    by_cases hc : sid0 ∈ sv.connected
    · cases hrole : jsGet sv.roles sid0 with
      | none =>
        simp only [step, if_pos hc, hrole] at he
        exact absurd he (List.not_mem_nil e)
      | some r0 =>
        cases r0 with
        | host =>
          simp only [step, if_pos hc, hrole] at he
          exact absurd he (List.not_mem_nil e)
        | viewer =>
          simp only [step, if_pos hc, hrole] at he
          exact absurd he (List.not_mem_nil e)
        | player pid =>
          simp only [step, if_pos hc, hrole, wsPlayerClose, List.mem_cons,
            List.mem_singleton, List.not_mem_nil, or_false] at he
          rcases he with rfl | rfl
          · exact emitSafe_toHosts _ _
          · exact emitSafe_toAll _ _ rfl
    · simp only [step, if_neg hc] at he
      exact absurd he (List.not_mem_nil e)
  | httpStart p rid =>
    by_cases hp : truthyStr p
    · simp only [step, apiHostStart, hp, Bool.not_true, if_false] at he
      rcases List.mem_cons.mp he with rfl | he1
      · exact emitSafe_toAll _ _ rfl
      · rcases List.mem_cons.mp he1 with rfl | he2
        · exact emitSafe_toHosts _ _
        · rcases List.mem_cons.mp he2 with rfl | he3
          · exact emitSafe_toAll _ _ rfl
          · exact absurd he3 (List.not_mem_nil e)
    · simp only [step, apiHostStart, hp, Bool.not_false, if_true] at he
      exact absurd he (List.not_mem_nil e)
  | httpClose =>
    simp only [step, apiHostClose, List.mem_cons, List.mem_singleton,
      List.not_mem_nil, or_false] at he
    rcases he with rfl | rfl
    · refine emitSafe_toAll _ _ ?_
      simp only [rawWordFields]
      rw [perPlayer_rows_no_raw]
      rfl
    · exact emitSafe_toHosts _ _
  | httpReset =>
    simp only [step, apiHostReset, resetGame, List.mem_cons, List.mem_singleton,
      List.not_mem_nil, or_false] at he
    rcases he with rfl | rfl
    · exact emitSafe_toAll _ _ rfl
    · exact emitSafe_toHosts _ _

theorem stepDeliveries_raw_safe (sv : Server) (a : Act) (sid : SocketId) (m : Msg)
    (h : (sid, m) ∈ stepDeliveries sv a) :
    rawWordFields m = [] ∨ jsGet (step sv a).1.roles sid = some Role.host := by
  obtain ⟨e, he, hf⟩ : ∃ e ∈ (step sv a).2, (sid, m) ∈ fanOut (step sv a).1 e := by
    simp only [stepDeliveries, List.mem_flatten, List.mem_map] at h
    obtain ⟨l, ⟨e, he, rfl⟩, hm⟩ := h
    exact ⟨e, he, hm⟩
  have hsafe := step_emits_safe sv a e he
  rcases fanOut_cases _ _ _ _ hf with rfl | ⟨rfl, _⟩ | ⟨rfl, hrole⟩
  · exact hsafe.2 sid m rfl
  · exact Or.inl (hsafe.1 m rfl)
  · exact Or.inr hrole

theorem runDeliveries_raw_safe (sv : Server) (acts : List Act) (sid : SocketId)
    (m : Msg) (hm : (sid, m) ∈ runDeliveries sv acts)
    (hv : jsGet (runServer sv acts).roles sid = some Role.viewer) :
    rawWordFields m = [] := by
  induction acts generalizing sv with
  | nil => exact absurd hm (List.not_mem_nil _)
  | cons a rest ih =>
    rw [runDeliveries] at hm
    rw [runServer] at hv
    rcases List.mem_append.mp hm with h1 | h2
    · rcases stepDeliveries_raw_safe sv a sid m h1 with hok | hhost
      · exact hok
      · rw [roles_run_monotone _ rest sid Role.host hhost] at hv
        cases hv
    · exact ih _ h2 hv

/-- C1: over every action sequence from the freshly booted server, a
socket whose handshake tagged it `viewer` never receives a message with
a raw-word field: the host-only `players_overview` (the only payload
carrying raw submitted words) is never fanned out to it, and the
`round_revealed` broadcast's per-player rows always carry
`submitted = false` with an empty word. -/
theorem viewer_never_receives_raw_word (acts : List Act) (sid : SocketId) (m : Msg)
    (hm : (sid, m) ∈ runDeliveries initServer acts)
    (hv : jsGet (runServer initServer acts).roles sid = some Role.viewer) :
    rawWordFields m = [] :=
  runDeliveries_raw_safe initServer acts sid m hm hv

/-- A concrete session: a viewer connects, a player joins, the host
starts a round with prompt "Birne", the player submits "apfel", the
host closes the round. -/
def exViewerActs : List Act :=
  [.helloViewer 0, .helloPlayer 1 5 none, .httpStart (some "Birne".toList) 9,
   .submitReq 1 (some "apfel".toList), .httpClose]

/-- The `round_revealed` broadcast the viewer receives in
`exViewerActs`. -/
def exRevealMsg : Msg :=
  .roundRevealed .revealed (some ⟨9, "Birne".toList, .revealed, 1⟩)
    [⟨"apfel".toList, 1, 0⟩] [⟨5, "Player 1".toList, 0⟩]
    [⟨5, "Player 1".toList, false, [], 0, 0⟩]

/-- Witness for `viewer_never_receives_raw_word`: in the concrete
session the viewer socket 0 does receive the reveal broadcast, its role
is `viewer`, and the theorem applies. -/
theorem viewer_never_receives_raw_word_witness :
    (0, exRevealMsg) ∈ runDeliveries initServer exViewerActs ∧
    jsGet (runServer initServer exViewerActs).roles 0 = some Role.viewer ∧
    rawWordFields exRevealMsg = [] :=
  ⟨by decide, by decide,
   viewer_never_receives_raw_word exViewerActs 0 exRevealMsg (by decide) (by decide)⟩

theorem toLower_not_ascii_upper (c : Char) :
    ¬('A' ≤ c.toLower ∧ c.toLower ≤ 'Z') := by
  intro hup
  obtain ⟨h1, h2⟩ := hup
  unfold Char.toLower at h1 h2
  by_cases h : c.toNat ≥ 65 ∧ c.toNat ≤ 90
  · rw [if_pos h] at h2
    have hv : (Char.ofNat (c.toNat + 32)).toNat = c.toNat + 32 := by
      unfold Char.ofNat
      rw [dif_pos]
      · rfl
      · constructor
        omega
    have h2n : (Char.ofNat (c.toNat + 32)).toNat ≤ 90 := h2
    rw [hv] at h2n
    omega
  · rw [if_neg h] at h1 h2
    have h1n : 65 ≤ c.toNat := h1
    have h2n : c.toNat ≤ 90 := h2
    exact h ⟨h1n, h2n⟩

/-- Normalized words contain no ASCII uppercase letter: `normalizeWord`
lower-cases before collapsing, and collapsing inserts only spaces.
Hence the only `Object.prototype` member names a normalized word can
collide with are `constructor` and `__proto__` - every other member
name (`toString`, `hasOwnProperty`, `valueOf`, ...) contains an
uppercase letter - which is exactly the key domain the faithful
plain-object model distinguishes. -/
theorem normalizeWord_no_ascii_upper (w : JStr) (c : Char)
    (hc : c ∈ normalizeWord w) : ¬('A' ≤ c ∧ c ≤ 'Z') := by
  unfold normalizeWord nfkd collapseWs at hc
  rcases mem_collapseWsAux _ _ _ hc with rfl | h1
  · decide
  · unfold jsToLower at h1
    obtain ⟨c0, _, rfl⟩ := List.mem_map.mp h1
    exact toLower_not_ascii_upper c0

/-- C3 (code bug): the claim (and spec §4.4, §8, and the score ≥ 0 data
model of §3) says closing a collecting round awards each submitting
player exactly `max(freq − 1, 0)` with one results entry per distinct
normalized word, but the plain-object `counts` table breaks this at the
validator-accepted word "constructor": the first read finds the
inherited `Object` constructor, the tally becomes the string
`String(Object) + "11"`, the results row carries that string with `NaN`
points, and both submitters' scores become `NaN` instead of the
intended `max(2 − 1, 0) = 1`. -/
theorem counts_prototype_key_bug :
    validateAssociation "Haus".toList "constructor".toList = none ∧
    normalizeWord "constructor".toList = "constructor".toList ∧
    subFreq [(1, "constructor".toList), (2, "constructor".toList)]
      (normalizeWord "constructor".toList) = 2 ∧
    buildCountsObj ["constructor".toList, "constructor".toList] =
      [("constructor".toList, .str (objectCtorToString ++ "11".toList))] ∧
    resultsObj (buildCountsObj ["constructor".toList, "constructor".toList]) =
      [⟨"constructor".toList, .str (objectCtorToString ++ "11".toList), .nan⟩] ∧
    awardPointsObj [(1, .num 0), (2, .num 0)]
        (buildCountsObj ["constructor".toList, "constructor".toList])
        [(1, "constructor".toList), (2, "constructor".toList)] =
      [(1, .nan), (2, .nan)] := by
  refine ⟨by decide, by decide, by decide, by decide, by decide, by decide⟩

/-- C10 (code bug): the claim says a submission left behind by a
disconnected player is still counted in the frequency table, raising
registered co-submitters' points, but at the validator-accepted word
"__proto__" the write `counts["__proto__"] = …` is a silent no-op
through the inherited accessor: the word gets no frequency entry
(intended frequency 2), it is missing from the results, and the
registered co-submitter's score becomes `NaN` via the inherited read
instead of gaining `max(2 − 1, 0) = 1`; the ghost id itself stays
unregistered as claimed. -/
theorem stale_proto_submission_bug :
    validateAssociation "Haus".toList "__proto__".toList = none ∧
    subFreq [(1, "__proto__".toList), (2, "__proto__".toList)]
      (normalizeWord "__proto__".toList) = 2 ∧
    buildCountsObj ["__proto__".toList, "__proto__".toList] = [] ∧
    resultsObj (buildCountsObj ["__proto__".toList, "__proto__".toList]) = [] ∧
    awardPointsObj [(1, .num 0)]
        (buildCountsObj ["__proto__".toList, "__proto__".toList])
        [(1, "__proto__".toList), (2, "__proto__".toList)] =
      [(1, .nan)] := by
  refine ⟨by decide, by decide, by decide, by decide, by decide⟩
